import Mathlib

/-!
Verification of the sales-scraper pipeline (`chatgptversionscraper_github.py`).

The spreadsheet is modelled as the value returned by `worksheet.get_all_values()`:
a list of rows, each row a list of cell strings.  The extraction pipeline works
on plain text, modelled as `List Char`.  Fallible external reads are modelled
with `Option`: `none` stands for the call raising an exception, which the
script catches.
-/

namespace Scraper

/-- One worksheet row (`get_all_values` row): a list of cell strings. -/
abbrev Row := List String

/-- The canonical header row written by `setup_worksheet_headers`
(`expected_headers` in the source). -/
def expectedHeaders : Row :=
  ["Timestamp", "Name", "Invoice ID", "Amount", "Screenshot Link"]

/-- The all-blank date-separator row appended by `main`
(`worksheet.append_row(["", "", "", "", ""])`). -/
def blankRow : Row := ["", "", "", "", ""]

/-- `setup_worksheet_headers`: read row 1 (`row_values(1)`, `[]` when absent);
if it is empty or differs from `expected_headers`, clear the sheet and write
the canonical header; the `except` branch (modelled by `readOk = false`) also
clears and writes the header. -/
def setupWorksheetHeaders (readOk : Bool) (sheet : List Row) : List Row :=
  if readOk then
    if sheet.headD [] = [] ∨ sheet.headD [] ≠ expectedHeaders then [expectedHeaders]
    else sheet
  else [expectedHeaders]

/-- The set of invoice IDs built by `check_for_duplicates`:
`set(row[2] for row in existing_data if len(row) > 2)` over
`get_all_values()[1:]`.  Membership in this list models membership in the
Python set. -/
def existingInvoices (sheet : List Row) : List String :=
  ((sheet.drop 1).filter (fun r => 2 < r.length)).map (fun r => r.getD 2 "")

/-- The filtering loop of `check_for_duplicates`: keep a row when its
`row[2]` is not in the seen set, and add it to the set
(`existing_invoices.add(invoice_id)`). -/
def dedupGo (seen : List String) : List Row → List Row
  | [] => []
  | r :: rs =>
    if r.getD 2 "" ∈ seen then dedupGo seen rs
    else r :: dedupGo (r.getD 2 "" :: seen) rs

/-- `check_for_duplicates` with a successful read of the existing rows. -/
def checkForDuplicates (sheet : List Row) (newRows : List Row) : List Row :=
  dedupGo (existingInvoices sheet) newRows

/-- `check_for_duplicates` including its `except` branch: when the read of
existing data raises (`readResult = none`) the function returns the incoming
rows unchanged. -/
def checkForDuplicatesRaw (readResult : Option (List Row)) (newRows : List Row) :
    List Row :=
  match readResult with
  | some sheet => checkForDuplicates sheet newRows
  | none => newRows

/-- Date extraction in `should_add_date_separator`:
`ts.split(' ')[0] if ' ' in ts else ts[:10]`. -/
def extractDate (ts : String) : String :=
  let cs := ts.toList
  if ' ' ∈ cs then String.mk (cs.takeWhile (fun c => c ≠ ' '))
  else String.mk (cs.take 10)

/-- Python truthiness test `if row and row[0]` in `should_add_date_separator`:
the row is non-empty and its first cell is a non-empty string. -/
def rowHasTimestamp (r : Row) : Bool := !r.isEmpty && r.headD "" ≠ ""

/-- `should_add_date_separator`: walk the data rows from the bottom, find the
last row with a non-empty timestamp cell, and compare its date with the run
date. -/
def shouldAddDateSeparator (sheet : List Row) (newDate : String) : Bool :=
  match (sheet.drop 1).reverse.find? rowHasTimestamp with
  | some r => extractDate (r.headD "") ≠ newDate
  | none => false

/-- The append stage of `main` (lines 599-614): when the deduplicated batch is
non-empty, optionally append one blank separator row, then append the batch. -/
def appendPhase (sheet : List Row) (uniqueRows : List Row) (date : String) :
    List Row :=
  if uniqueRows.isEmpty then sheet
  else if shouldAddDateSeparator sheet date then sheet ++ [blankRow] ++ uniqueRows
  else sheet ++ uniqueRows

/-- One reconciliation pass of `main`: dedup filter followed by the append
stage (header setup has already run). -/
def reconcile (sheet : List Row) (rows : List Row) (date : String) : List Row :=
  appendPhase sheet (checkForDuplicates sheet rows) date

/- ### Lemmas about the dedup loop -/

theorem dedupGo_sublist (seen : List String) (rows : List Row) :
    (dedupGo seen rows).Sublist rows := by
  induction rows generalizing seen with
  | nil => simp [dedupGo]
  | cons r rs ih =>
    simp only [dedupGo]
    split
    · exact (ih seen).cons r
    · exact (ih _).cons₂ r

theorem dedupGo_mem_not_seen (seen : List String) (rows : List Row) (r : Row)
    (h : r ∈ dedupGo seen rows) : r.getD 2 "" ∉ seen := by
  induction rows generalizing seen with
  | nil => simp [dedupGo] at h
  | cons a rs ih =>
    simp only [dedupGo] at h
    split at h
    · exact ih seen h
    · rcases List.mem_cons.mp h with h1 | h1
      · subst h1; assumption
      · intro hc
        exact ih _ h1 (List.mem_cons_of_mem _ hc)

theorem dedupGo_nodup (seen : List String) (rows : List Row) :
    ((dedupGo seen rows).map (fun r => r.getD 2 "")).Nodup := by
  induction rows generalizing seen with
  | nil => simp [dedupGo]
  | cons a rs ih =>
    simp only [dedupGo]
    split
    · exact ih seen
    · simp only [List.map_cons, List.nodup_cons]
      refine ⟨?_, ih _⟩
      intro hc
      rcases List.mem_map.mp hc with ⟨q, hq, hqe⟩
      have := dedupGo_mem_not_seen _ _ _ hq
      exact this (by rw [hqe]; exact List.mem_cons_self _ _)

theorem dedupGo_complete (seen : List String) (rows : List Row) (id : String)
    (h1 : id ∈ rows.map (fun r => r.getD 2 "")) (h2 : id ∉ seen) :
    id ∈ (dedupGo seen rows).map (fun r => r.getD 2 "") := by
  induction rows generalizing seen with
  | nil => simp at h1
  | cons a rs ih =>
    simp only [List.map_cons, List.mem_cons] at h1
    simp only [dedupGo]
    split
    · rename_i hmem
      rcases h1 with h1 | h1
      · exact absurd (h1 ▸ hmem) h2
      · exact ih seen h1 h2
    · simp only [List.map_cons, List.mem_cons]
      rcases h1 with h1 | h1
      · exact Or.inl h1
      · by_cases hid : id = a.getD 2 ""
        · exact Or.inl hid
        · refine Or.inr (ih _ h1 ?_)
          intro hc
          rcases List.mem_cons.mp hc with hc | hc
          · exact hid hc
          · exact h2 hc

theorem dedupGo_mem_or (seen : List String) (rows : List Row) (r : Row)
    (h : r ∈ rows) :
    r.getD 2 "" ∈ seen ∨ r.getD 2 "" ∈ (dedupGo seen rows).map (fun q => q.getD 2 "") := by
  by_cases hs : r.getD 2 "" ∈ seen
  · exact Or.inl hs
  · exact Or.inr (dedupGo_complete seen rows _ (List.mem_map_of_mem _ h) hs)

theorem dedupGo_eq_nil (seen : List String) (rows : List Row)
    (h : ∀ r ∈ rows, r.getD 2 "" ∈ seen) : dedupGo seen rows = [] := by
  induction rows with
  | nil => rfl
  | cons a rs ih =>
    simp only [dedupGo]
    rw [if_pos (h a (List.mem_cons_self _ _))]
    exact ih (fun r hr => h r (List.mem_cons_of_mem _ hr))

theorem find?_congr {α : Type} (l : List α) (p q : α → Bool)
    (h : ∀ x ∈ l, p x = q x) : l.find? p = l.find? q := by
  induction l with
  | nil => rfl
  | cons a t ih =>
    have ha := h a (List.mem_cons_self _ _)
    have ht := ih (fun x hx => h x (List.mem_cons_of_mem _ hx))
    cases hpa : p a with
    | true => simp [List.find?, hpa, ← ha, hpa]
    | false => simp [List.find?, hpa, ← ha, ht]

theorem existingInvoices_append (a : Row) (t l : List Row) :
    existingInvoices ((a :: t) ++ l) =
      existingInvoices (a :: t) ++
        (l.filter (fun r => 2 < r.length)).map (fun r => r.getD 2 "") := by
  simp [existingInvoices, List.filter_append]

/- ### Claim theorems for the reconciliation sink -/

/-- C1: for a sheet whose data rows carry invoice IDs in column 3,
`check_for_duplicates` builds the existing-ID set from exactly those column-3
values, and returns exactly the incoming records whose IDs are fresh, in their
original relative order, extending the set incrementally so that a second
record with an already-seen ID inside the same batch is also dropped. -/
theorem c1_checkForDuplicates_unique_filter (sheet rows : List Row)
    (hs : ∀ r ∈ sheet.drop 1, 2 < r.length) :
    existingInvoices sheet = (sheet.drop 1).map (fun r => r.getD 2 "") ∧
    (checkForDuplicates sheet rows).Sublist rows ∧
    (∀ r ∈ checkForDuplicates sheet rows, r.getD 2 "" ∉ existingInvoices sheet) ∧
    ((checkForDuplicates sheet rows).map (fun r => r.getD 2 "")).Nodup ∧
    (∀ id ∈ rows.map (fun r => r.getD 2 ""), id ∉ existingInvoices sheet →
      id ∈ (checkForDuplicates sheet rows).map (fun r => r.getD 2 "")) := by
  refine ⟨?_, dedupGo_sublist _ _, fun r hr => dedupGo_mem_not_seen _ _ _ hr,
    dedupGo_nodup _ _, fun id hid hnot => dedupGo_complete _ _ _ hid hnot⟩
  unfold existingInvoices
  rw [List.filter_eq_self.mpr (fun r hr => decide_eq_true (hs r hr))]

theorem c1_witness :
    (∀ r ∈ ([["Timestamp", "Name", "Invoice ID", "Amount", "Screenshot Link"],
             ["2024-01-01 10:00:00", "A", "11", "5", ""]] : List Row).drop 1,
        2 < r.length) ∧
    (checkForDuplicates
        [["Timestamp", "Name", "Invoice ID", "Amount", "Screenshot Link"],
         ["2024-01-01 10:00:00", "A", "11", "5", ""]]
        [["t", "B", "22", "7", ""], ["t", "C", "11", "9", ""],
         ["t", "D", "22", "8", ""]]).Sublist
      [["t", "B", "22", "7", ""], ["t", "C", "11", "9", ""],
       ["t", "D", "22", "8", ""]] :=
  ⟨by decide,
    (c1_checkForDuplicates_unique_filter
      [["Timestamp", "Name", "Invoice ID", "Amount", "Screenshot Link"],
       ["2024-01-01 10:00:00", "A", "11", "5", ""]]
      [["t", "B", "22", "7", ""], ["t", "C", "11", "9", ""],
       ["t", "D", "22", "8", ""]] (by decide)).2.1⟩

/-- C2: running the reconciliation step (dedup filter followed by the append
stage) twice with the same batch against the same sheet appends the records
only once: the second pass appends nothing.  The sheet is assumed non-empty
(header setup has already run before reconciliation in `main`), and the batch
rows carry at least three fields, as every row built by `scrape_sales` does. -/
theorem c2_reconcile_idempotent (sheet rows : List Row) (date : String)
    (hsheet : sheet ≠ [])
    (hlen : ∀ r ∈ rows, 2 < r.length) :
    reconcile (reconcile sheet rows date) rows date = reconcile sheet rows date := by
  obtain ⟨a, t, rfl⟩ : ∃ a t, sheet = a :: t := by
    cases sheet with
    | nil => exact absurd rfl hsheet
    | cons a t => exact ⟨a, t, rfl⟩
  by_cases hout : (checkForDuplicates (a :: t) rows).isEmpty
  · have h1 : reconcile (a :: t) rows date = a :: t := by
      unfold reconcile appendPhase
      rw [if_pos hout]
    rw [h1]
    exact h1
  · -- the first pass appended the whole deduplicated batch
    have hform : ∃ mid, (mid = [blankRow] ∨ mid = []) ∧
        reconcile (a :: t) rows date = (a :: t) ++ (mid ++ checkForDuplicates (a :: t) rows) := by
      unfold reconcile appendPhase
      rw [if_neg hout]
      by_cases hsep : shouldAddDateSeparator (a :: t) date
      · exact ⟨[blankRow], Or.inl rfl, by rw [if_pos hsep]; simp⟩
      · exact ⟨[], Or.inr rfl, by rw [if_neg hsep]; simp⟩
    obtain ⟨mid, _, heq⟩ := hform
    have hall : ∀ r ∈ rows, r.getD 2 "" ∈ existingInvoices (reconcile (a :: t) rows date) := by
      intro r hr
      rw [heq, existingInvoices_append]
      rcases dedupGo_mem_or (existingInvoices (a :: t)) rows r hr with hmem | hmem
      · exact List.mem_append_left _ hmem
      · refine List.mem_append_right _ ?_
        rcases List.mem_map.mp hmem with ⟨q, hq, hqe⟩
        rw [List.filter_append, List.map_append]
        refine List.mem_append_right _ ?_
        have hqrows : q ∈ rows := (dedupGo_sublist _ _).subset hq
        refine List.mem_map.mpr ⟨q, List.mem_filter.mpr ⟨hq, ?_⟩, hqe⟩
        exact decide_eq_true (hlen q hqrows)
    have hnil : checkForDuplicates (reconcile (a :: t) rows date) rows = [] :=
      dedupGo_eq_nil _ _ hall
    conv_lhs => rw [reconcile, hnil]
    simp [appendPhase]

theorem c2_witness :
    (([["Timestamp", "Name", "Invoice ID", "Amount", "Screenshot Link"]] : List Row) ≠ []) ∧
    reconcile
        (reconcile [["Timestamp", "Name", "Invoice ID", "Amount", "Screenshot Link"]]
          [["2024-01-02 09:00:00", "B", "22", "7", ""]] "2024-01-02")
        [["2024-01-02 09:00:00", "B", "22", "7", ""]] "2024-01-02" =
      reconcile [["Timestamp", "Name", "Invoice ID", "Amount", "Screenshot Link"]]
        [["2024-01-02 09:00:00", "B", "22", "7", ""]] "2024-01-02" :=
  ⟨by decide,
    c2_reconcile_idempotent
      [["Timestamp", "Name", "Invoice ID", "Amount", "Screenshot Link"]]
      [["2024-01-02 09:00:00", "B", "22", "7", ""]] "2024-01-02"
      (by decide) (by decide)⟩

/-- C4: after `setup_worksheet_headers` runs on any sheet state (including a
failing read of row 1, `readOk = false`), row 1 equals the canonical header;
whenever the pre-existing row 1 is absent or differs from the header tuple the
whole sheet is cleared, leaving only the header row; a sheet already carrying
the header is left untouched. -/
theorem c4_header_invariant (readOk : Bool) (sheet : List Row) :
    (setupWorksheetHeaders readOk sheet).headD [] = expectedHeaders ∧
    (sheet.headD [] ≠ expectedHeaders →
      setupWorksheetHeaders readOk sheet = [expectedHeaders]) ∧
    (readOk = true → sheet.headD [] = expectedHeaders →
      setupWorksheetHeaders readOk sheet = sheet) := by
  cases readOk with
  | false => exact ⟨rfl, fun _ => rfl, fun h => absurd h (by decide)⟩
  | true =>
    by_cases h : sheet.headD [] = expectedHeaders
    · have hcond : ¬ (sheet.headD [] = [] ∨ sheet.headD [] ≠ expectedHeaders) := by
        rw [h]
        simp [expectedHeaders]
      have hrun : setupWorksheetHeaders true sheet = sheet := by
        unfold setupWorksheetHeaders
        rw [if_pos (rfl : (true : Bool) = true), if_neg hcond]
      exact ⟨by rw [hrun]; exact h, fun hc => absurd h hc, fun _ _ => hrun⟩
    · have hcond : sheet.headD [] = [] ∨ sheet.headD [] ≠ expectedHeaders := Or.inr h
      have hrun : setupWorksheetHeaders true sheet = [expectedHeaders] := by
        unfold setupWorksheetHeaders
        rw [if_pos (rfl : (true : Bool) = true), if_pos hcond]
      exact ⟨by rw [hrun]; rfl, fun _ => hrun, fun _ hc => absurd hc h⟩

theorem c4_witness :
    setupWorksheetHeaders true [["stale", "junk"], ["x"]] = [expectedHeaders] :=
  (c4_header_invariant true [["stale", "junk"], ["x"]]).2.1 (by decide)

/-- C7: when the read of existing rows inside `check_for_duplicates` raises
(`readResult = none`), the function fails open and returns the incoming batch
unchanged, treating every record as unique. -/
theorem c7_dedup_fail_open (newRows : List Row) :
    checkForDuplicatesRaw none newRows = newRows := rfl

/-- C10: a sheet containing an all-blank five-field date-separator row past
the header contributes the empty string to the existing-invoice set (the
separator row passes the `len(row) > 2` guard), and consequently every
incoming record whose invoice field is empty is dropped as a duplicate. -/
theorem c10_blank_row_poisons_dedup (sheet rows : List Row)
    (hblank : blankRow ∈ sheet.drop 1) :
    "" ∈ existingInvoices sheet ∧
    (∀ r ∈ checkForDuplicates sheet rows, r.getD 2 "" ≠ "") ∧
    (∀ r ∈ rows, r.getD 2 "" = "" → r ∉ checkForDuplicates sheet rows) := by
  have hmem : "" ∈ existingInvoices sheet := by
    refine List.mem_map.mpr ⟨blankRow, List.mem_filter.mpr ⟨hblank, by decide⟩, rfl⟩
  refine ⟨hmem, fun r hr hc => ?_, fun r _ hc hrin => ?_⟩
  · exact dedupGo_mem_not_seen _ _ _ hr (by rw [hc]; exact hmem)
  · exact dedupGo_mem_not_seen _ _ _ hrin (by rw [hc]; exact hmem)

theorem c10_witness :
    blankRow ∈ ([["Timestamp", "Name", "Invoice ID", "Amount", "Screenshot Link"],
        ["", "", "", "", ""]] : List Row).drop 1 ∧
    "" ∈ existingInvoices
        [["Timestamp", "Name", "Invoice ID", "Amount", "Screenshot Link"],
         ["", "", "", "", ""]] :=
  ⟨by decide,
    (c10_blank_row_poisons_dedup
      [["Timestamp", "Name", "Invoice ID", "Amount", "Screenshot Link"],
       ["", "", "", "", ""]]
      [] (by decide)).1⟩

/-- C6: before a non-empty deduplicated batch is appended, `main` consults
`should_add_date_separator`: if the date embedded in the timestamp of the
sheet's last non-empty row differs from the run date, exactly one all-blank
row is appended before the batch; if the dates match, no blank row is
appended.  The sheet's data rows are assumed to be either all-blank separator
rows or rows carrying a timestamp in their first cell, which is the shape the
script itself writes. -/
theorem c6_date_separator (sheet uniq : List Row) (date : String) (r : Row)
    (hshape : ∀ q ∈ sheet.drop 1, (∀ c ∈ q, c = "") ∨ q.headD "" ≠ "")
    (hne : ¬ uniq.isEmpty)
    (hlast : (sheet.drop 1).reverse.find? (fun q => q.any (fun c => decide (c ≠ ""))) = some r) :
    (extractDate (r.headD "") ≠ date →
      appendPhase sheet uniq date = sheet ++ [blankRow] ++ uniq) ∧
    (extractDate (r.headD "") = date →
      appendPhase sheet uniq date = sheet ++ uniq) := by
  have hpred : ∀ q ∈ (sheet.drop 1).reverse,
      rowHasTimestamp q = q.any (fun c => decide (c ≠ "")) := by
    intro q hq
    rcases hshape q (List.mem_reverse.mp hq) with hb | hts
    · -- all cells blank: both sides are false
      have h1 : rowHasTimestamp q = false := by
        cases q with
        | nil => rfl
        | cons c cs =>
          have : c = "" := hb c (List.mem_cons_self _ _)
          simp [rowHasTimestamp, this]
      have h2 : q.any (fun c => decide (c ≠ "")) = false := by
        rw [List.any_eq_false]
        intro c hc
        simp [hb c hc]
      rw [h1, h2]
    · -- first cell non-empty: both sides are true
      cases q with
      | nil => simp at hts
      | cons c cs =>
        have hc : c ≠ "" := hts
        have h1 : rowHasTimestamp (c :: cs) = true := by
          simp [rowHasTimestamp, hc]
        have h2 : (c :: cs).any (fun x => decide (x ≠ "")) = true := by
          rw [List.any_eq_true]
          exact ⟨c, List.mem_cons_self _ _, decide_eq_true hc⟩
        rw [h1, h2]
  have hfind : (sheet.drop 1).reverse.find? rowHasTimestamp = some r := by
    rw [find?_congr _ _ _ hpred]
    exact hlast
  have hsep : shouldAddDateSeparator sheet date =
      decide (extractDate (r.headD "") ≠ date) := by
    unfold shouldAddDateSeparator
    rw [hfind]
  constructor
  · intro hd
    unfold appendPhase
    rw [if_neg (by simpa using hne), if_pos (by rw [hsep]; exact decide_eq_true hd)]
  · intro hd
    unfold appendPhase
    rw [if_neg (by simpa using hne), if_neg ?_]
    rw [hsep, hd]
    simp

/- ### Screenshot upload and link attachment -/

/-- `upload_screenshot`: with no Drive client it returns `""` without an
upload call; otherwise it performs exactly one upload call (counted here),
returning the share link, or `""` when the upload raises. -/
def uploadScreenshot (driveAvailable uploadOk : Bool) (fileId : String)
    (uploadCalls : Nat) : Nat × String :=
  if driveAvailable then
    (uploadCalls + 1,
      if uploadOk then
        "https://drive.google.com/file/d/" ++ fileId ++ "/view?usp=drivesdk"
      else "")
  else (uploadCalls, "")

/-- The screenshot file path built in `scrape_sales`, keyed by the run date. -/
def screenshotPath (date : String) : String :=
  "daily_sales_screenshot_" ++ date ++ ".png"

/-- The screenshot block of `scrape_sales` (lines 442-453): save the PNG at
the date-keyed path, then upload it when Drive is available — unconditionally,
with no cache lookup of any prior upload.  Returns
(total upload calls, link, path written). -/
def screenshotPhase (driveAvailable uploadOk : Bool) (fileId date : String)
    (uploadCalls : Nat) : Nat × String × String :=
  ((uploadScreenshot driveAvailable uploadOk fileId uploadCalls).1,
   (uploadScreenshot driveAvailable uploadOk fileId uploadCalls).2,
   screenshotPath date)

/-- The link-attachment block of `scrape_sales` (lines 455-465): with more
than one extracted row, only row 0 receives the screenshot link and the
remaining rows get an empty fifth field; otherwise every (i.e. the single)
row receives the link. -/
def attachScreenshotLink (link : String) (rows : List Row) : List Row :=
  if 1 < rows.length then
    match rows with
    | [] => []
    | r :: rest => r.set 4 link :: rest.map (fun q => q.set 4 "")
  else rows.map (fun r => r.set 4 link)

theorem getD_set_lt (l : List String) (n : Nat) (v d : String) (h : n < l.length) :
    (l.set n v).getD n d = v := by
  induction l generalizing n with
  | nil => simp at h
  | cons a t ih =>
    cases n with
    | zero => rfl
    | succ m => exact ih m (Nat.lt_of_succ_lt_succ h)

/-- C5 counterexample: two runs on the same calendar date each perform an
upload call — the second run does not reuse anything; the call count goes
from 1 to 2. -/
theorem c5_counterexample :
    (screenshotPhase true true "f1" "2024-01-01" 0).1 = 1 ∧
    (screenshotPhase true true "f2" "2024-01-01"
        (screenshotPhase true true "f1" "2024-01-01" 0).1).1 = 2 ∧
    (screenshotPhase true true "f2" "2024-01-01"
        (screenshotPhase true true "f1" "2024-01-01" 0).1).1 ≠
      (screenshotPhase true true "f1" "2024-01-01" 0).1 := by
  exact ⟨rfl, rfl, by decide⟩

/-- C5 (amended): every run with an available Drive client performs exactly
one screenshot upload call, regardless of the calendar date; only the PNG
path is keyed by the date, so same-day runs overwrite one file but still
upload again. -/
theorem c5_amended_upload_every_run (driveAvailable uploadOk : Bool)
    (fileId date : String) (uploadCalls : Nat) :
    (screenshotPhase driveAvailable uploadOk fileId date uploadCalls).1 =
      (if driveAvailable then uploadCalls + 1 else uploadCalls) ∧
    (screenshotPhase driveAvailable uploadOk fileId date uploadCalls).2.2 =
      "daily_sales_screenshot_" ++ date ++ ".png" := by
  cases driveAvailable <;>
    simp [screenshotPhase, uploadScreenshot, screenshotPath]

/-- C8 counterexample: the screenshot link is attached to the first
*extracted* row before deduplication; when that row is dropped as a
duplicate, the appended batch (here of two records) carries no link in any
fifth field, so its first appended row does not carry the link. -/
theorem c8_counterexample :
    1 < (checkForDuplicates
        [["Timestamp", "Name", "Invoice ID", "Amount", "Screenshot Link"],
         ["2024-01-01 10:00:00", "A", "11", "5", ""]]
        (attachScreenshotLink "L"
          [["t", "A", "11", "10", ""], ["t", "B", "22", "20", ""],
           ["t", "C", "33", "30", ""]])).length ∧
    ((checkForDuplicates
        [["Timestamp", "Name", "Invoice ID", "Amount", "Screenshot Link"],
         ["2024-01-01 10:00:00", "A", "11", "5", ""]]
        (attachScreenshotLink "L"
          [["t", "A", "11", "10", ""], ["t", "B", "22", "20", ""],
           ["t", "C", "33", "30", ""]])).headD []).getD 4 "" ≠ "L" := by
  exact ⟨by decide, by decide⟩

/-- C8 (amended): among the rows produced by the extraction phase, before
deduplication, a batch of more than one row carries the screenshot link only
in its first row's fifth field with all remaining fifth fields blank, and a
single-row batch carries the link in that row; an appended batch therefore
carries the link in its first row only when the first extracted row survives
the duplicate filter. -/
theorem c8_amended_link_on_first_extracted (link : String) (rows : List Row)
    (h5 : ∀ r ∈ rows, r.length = 5) :
    (1 < rows.length →
      ((attachScreenshotLink link rows).headD []).getD 4 "" = link ∧
      ∀ r ∈ (attachScreenshotLink link rows).tail, r.getD 4 "" = "") ∧
    (rows.length = 1 → ∀ r ∈ attachScreenshotLink link rows, r.getD 4 "" = link) := by
  constructor
  · intro hlen
    unfold attachScreenshotLink
    rw [if_pos hlen]
    cases rows with
    | nil => simp at hlen
    | cons r rest =>
      constructor
      · have h5r : r.length = 5 := h5 r (List.mem_cons_self _ _)
        simp only [List.headD]
        exact getD_set_lt r 4 link "" (by rw [h5r]; decide)
      · intro q hq
        simp only [List.tail_cons] at hq
        rcases List.mem_map.mp hq with ⟨p, hp, hpe⟩
        have h5p : p.length = 5 := h5 p (List.mem_cons_of_mem _ hp)
        rw [← hpe]
        exact getD_set_lt p 4 "" "" (by rw [h5p]; decide)
  · intro hlen
    unfold attachScreenshotLink
    rw [if_neg (by rw [hlen]; decide)]
    intro q hq
    rcases List.mem_map.mp hq with ⟨p, hp, hpe⟩
    have h5p : p.length = 5 := h5 p hp
    rw [← hpe]
    exact getD_set_lt p 4 link "" (by rw [h5p]; decide)

theorem c8_witness :
    (∀ r ∈ ([["t", "A", "11", "10", ""], ["t", "B", "22", "20", ""]] : List Row),
        r.length = 5) ∧
    ((attachScreenshotLink "L"
        [["t", "A", "11", "10", ""], ["t", "B", "22", "20", ""]]).headD []).getD 4 "" = "L" :=
  ⟨by decide,
    ((c8_amended_link_on_first_extracted "L"
        [["t", "A", "11", "10", ""], ["t", "B", "22", "20", ""]]
        (by decide)).1 (by decide)).1⟩

theorem c6_witness :
    appendPhase
        [["Timestamp", "Name", "Invoice ID", "Amount", "Screenshot Link"],
         ["2024-01-01 10:00:00", "A", "11", "5", ""]]
        [["2024-01-02 09:00:00", "B", "22", "7", ""]] "2024-01-02" =
      [["Timestamp", "Name", "Invoice ID", "Amount", "Screenshot Link"],
       ["2024-01-01 10:00:00", "A", "11", "5", ""]] ++ [blankRow] ++
        [["2024-01-02 09:00:00", "B", "22", "7", ""]] :=
  (c6_date_separator
      [["Timestamp", "Name", "Invoice ID", "Amount", "Screenshot Link"],
       ["2024-01-01 10:00:00", "A", "11", "5", ""]]
      [["2024-01-02 09:00:00", "B", "22", "7", ""]] "2024-01-02"
      ["2024-01-01 10:00:00", "A", "11", "5", ""]
      (by decide) (by decide) (by decide)).1 (by decide)

/- ### Text matching: the detail sales patterns of `scrape_sales`

The four regexes in `sales_patterns` (lines 339-344) are embedded as
explicit matchers over `List Char`, following Python `re` semantics for
these particular patterns: `re.findall` scans left to right and restarts
after each match; literals compare case-insensitively (`re.IGNORECASE`);
`.*?` is a lazy gap, with `re.DOTALL` it may cross newlines; greedy
sub-patterns (`\s*`, `[\d,]+`, `\.?`, `\d*`, `#?`, `\d+`) take the maximal
run — for these patterns no backtracking into an already-matched greedy run
can turn a failure into a success (the following literal can never begin
with a character from the preceding class), so the greedy-first parse below
is exact. -/

/-- case-insensitive character comparison (`re.IGNORECASE`) -/
def lowerEq (a b : Char) : Bool := a.toLower = b.toLower

/-- the whitespace class `\s` -/
def isWs (c : Char) : Bool :=
  c = ' ' || c = '\t' || c = '\n' || c = '\r' || c = '\x0b' || c = '\x0c'

/-- the character class `[\d,]` of the amount group -/
def isAmtChar (c : Char) : Bool := c.isDigit || c = ','

/-- case-insensitive literal match; returns the remainder on success -/
def matchLit : List Char → List Char → Option (List Char)
  | [], cs => some cs
  | _ :: _, [] => none
  | l :: ls, c :: cs => if lowerEq l c then matchLit ls cs else none

/-- greedy optional single character, `c?` -/
def matchOptChar (x : Char) : List Char → List Char
  | [] => []
  | c :: cs => if lowerEq x c then cs else c :: cs

/-- greedy `\s*` -/
def skipWs (cs : List Char) : List Char := cs.dropWhile isWs

/-- the amount group `([\d,]+\.?\d*)`: greedy digit/comma run, optional dot,
greedy digit run; returns (captured amount, remainder) -/
def matchAmount (cs : List Char) : Option (List Char × List Char) :=
  let ds := cs.takeWhile isAmtChar
  if ds.isEmpty then none
  else
    match cs.drop ds.length with
    | '.' :: rest2 =>
      let fs := rest2.takeWhile Char.isDigit
      some (ds ++ '.' :: fs, rest2.drop fs.length)
    | rest => some (ds, rest)

/-- `Invoice ID:\s*#?(\d+)` at the current position -/
def matchInvoiceIdAt (cs : List Char) : Option (List Char × List Char) :=
  match matchLit "Invoice ID:".toList cs with
  | none => none
  | some r1 =>
    let r3 := matchOptChar '#' (skipWs r1)
    let ds := r3.takeWhile Char.isDigit
    if ds.isEmpty then none else some (ds, r3.drop ds.length)

/-- the lazy gap `.*?` (under `re.DOTALL`) before the invoice tail of
pattern 1: the first position at which the tail matches -/
def findInvoiceId : List Char → Option (List Char × List Char)
  | [] => none
  | c :: cs =>
    match matchInvoiceIdAt (c :: cs) with
    | some r => some r
    | none => findInvoiceId cs

/-- pattern 1, `Sale of Rs\.?\s*([\d,]+\.?\d*).*?Invoice ID:\s*#?(\d+)`, at
the current position; returns ((amount, id), remainder after the match) -/
def matchP1At (cs : List Char) : Option ((List Char × List Char) × List Char) :=
  match matchLit "Sale of Rs".toList cs with
  | none => none
  | some r1 =>
    match matchAmount (skipWs (matchOptChar '.' r1)) with
    | none => none
    | some (amt, r4) =>
      match findInvoiceId r4 with
      | none => none
      | some (id, r5) => some ((amt, id), r5)

/-- `#(\d+)` at the current position (tail of pattern 2) -/
def matchHashIdAt (cs : List Char) : Option (List Char × List Char) :=
  match cs with
  | '#' :: r =>
    let ds := r.takeWhile Char.isDigit
    if ds.isEmpty then none else some (ds, r.drop ds.length)
  | _ => none

def findHashId : List Char → Option (List Char × List Char)
  | [] => none
  | c :: cs =>
    match matchHashIdAt (c :: cs) with
    | some r => some r
    | none => findHashId cs

/-- pattern 2, `Rs\.?\s*([\d,]+\.?\d*).*?#(\d+)` -/
def matchP2At (cs : List Char) : Option ((List Char × List Char) × List Char) :=
  match matchLit "Rs".toList cs with
  | none => none
  | some r1 =>
    match matchAmount (skipWs (matchOptChar '.' r1)) with
    | none => none
    | some (amt, r4) =>
      match findHashId r4 with
      | none => none
      | some (id, r5) => some ((amt, id), r5)

/-- `#?(\d+)` at the current position (tail of pattern 3) -/
def matchOptHashDigitsAt (cs : List Char) : Option (List Char × List Char) :=
  match cs with
  | '#' :: r =>
    let ds := r.takeWhile Char.isDigit
    if ds.isEmpty then none else some (ds, r.drop ds.length)
  | r =>
    let ds := r.takeWhile Char.isDigit
    if ds.isEmpty then none else some (ds, r.drop ds.length)

def findOptHashDigits : List Char → Option (List Char × List Char)
  | [] => none
  | c :: cs =>
    match matchOptHashDigitsAt (c :: cs) with
    | some r => some r
    | none => findOptHashDigits cs

/-- lazy gap to the first case-insensitive occurrence of a literal; returns
the remainder after the literal -/
def findLitCI (lit : List Char) : List Char → Option (List Char)
  | [] => matchLit lit []
  | c :: cs =>
    match matchLit lit (c :: cs) with
    | some r => some r
    | none => findLitCI lit cs

/-- pattern 3, `Amount:\s*Rs\.?\s*([\d,]+\.?\d*).*?Invoice.*?#?(\d+)` -/
def matchP3At (cs : List Char) : Option ((List Char × List Char) × List Char) :=
  match matchLit "Amount:".toList cs with
  | none => none
  | some r0 =>
    match matchLit "Rs".toList (skipWs r0) with
    | none => none
    | some r1 =>
      match matchAmount (skipWs (matchOptChar '.' r1)) with
      | none => none
      | some (amt, r4) =>
        match findLitCI "Invoice".toList r4 with
        | none => none
        | some r5 =>
          match findOptHashDigits r5 with
          | none => none
          | some (id, r6) => some ((amt, id), r6)

/-- `#?(\d{8,})` at the current position (tail of pattern 4) -/
def matchLongIdAt (cs : List Char) : Option (List Char × List Char) :=
  match cs with
  | '#' :: r =>
    let ds := r.takeWhile Char.isDigit
    if ds.length < 8 then none else some (ds, r.drop ds.length)
  | r =>
    let ds := r.takeWhile Char.isDigit
    if ds.length < 8 then none else some (ds, r.drop ds.length)

def findLongId : List Char → Option (List Char × List Char)
  | [] => none
  | c :: cs =>
    match matchLongIdAt (c :: cs) with
    | some r => some r
    | none => findLongId cs

/-- pattern 4, `([\d,]+\.?\d*).*?Invoice.*?#?(\d{8,})` -/
def matchP4At (cs : List Char) : Option ((List Char × List Char) × List Char) :=
  match matchAmount cs with
  | none => none
  | some (amt, r1) =>
    match findLitCI "Invoice".toList r1 with
    | none => none
    | some r2 =>
      match findLongId r2 with
      | none => none
      | some (id, r3) => some ((amt, id), r3)

/-- `re.findall` scan: try the pattern at each position from the left,
restart after the end of each match.  Every pattern above consumes at least
one character, so `fuel = length` never runs out before the scan ends. -/
def findallAux (m : List Char → Option ((List Char × List Char) × List Char)) :
    Nat → List Char → List (List Char × List Char)
  | 0, _ => []
  | _ + 1, [] => []
  | fuel + 1, c :: cs =>
    match m (c :: cs) with
    | some (p, rest) => p :: findallAux m fuel rest
    | none => findallAux m fuel cs

def findallP1 (cs : List Char) : List (List Char × List Char) :=
  findallAux matchP1At cs.length cs

def findallP2 (cs : List Char) : List (List Char × List Char) :=
  findallAux matchP2At cs.length cs

def findallP3 (cs : List Char) : List (List Char × List Char) :=
  findallAux matchP3At cs.length cs

def findallP4 (cs : List Char) : List (List Char × List Char) :=
  findallAux matchP4At cs.length cs

/-- the `sales_patterns` loop (lines 346-365): run each pattern in source
order and commit to the first that produces at least one match -/
def detailFirstMatches (cs : List Char) : List (List Char × List Char) :=
  if !(findallP1 cs).isEmpty then findallP1 cs
  else if !(findallP2 cs).isEmpty then findallP2 cs
  else if !(findallP3 cs).isEmpty then findallP3 cs
  else findallP4 cs

/-- `amount.replace(',', '')` -/
def stripCommas (cs : List Char) : List Char := cs.filter (fun c => decide (c ≠ ','))

/-- the (amount, invoice) pairs yielded by the detail branch: the first
matching pattern's groups, with commas stripped from each amount -/
def detailExtract (cs : List Char) : List (List Char × List Char) :=
  (detailFirstMatches cs).map (fun p => (stripCommas p.1, p.2))

/- ### The well-formed occurrence model for claim C3 -/

/-- One occurrence of the shape `Sale of Rs. <amount><gap>Invoice ID: #<id>`:
the amount split as integer part and optional fractional digits, the free
filler text between amount and invoice tail, and the invoice digits. -/
structure SaleOcc where
  intPart : List Char
  frac : Option (List Char)
  gap : List Char
  idDigits : List Char
deriving DecidableEq

/-- the optional fractional part of an amount, rendered -/
def fracText : Option (List Char) → List Char
  | some f => '.' :: f
  | none => []

/-- the amount text of an occurrence, commas and all -/
def amountText (o : SaleOcc) : List Char :=
  o.intPart ++ fracText o.frac

/-- the rendered text of one occurrence -/
def occText (o : SaleOcc) : List Char :=
  "Sale of Rs. ".toList ++
    (amountText o ++ (o.gap ++ ("Invoice ID: #".toList ++ o.idDigits)))

/-- the rendered text of a list of occurrences -/
def occsText (os : List SaleOcc) : List Char := (os.map occText).flatten

/-- does the case-insensitive literal occur anywhere in the text? -/
def hasLitCI (lit : List Char) : List Char → Bool
  | [] => (matchLit lit []).isSome
  | c :: cs => (matchLit lit (c :: cs)).isSome || hasLitCI lit cs

/-- the head of the list, if any, does not satisfy `p` -/
def headNot (p : Char → Bool) : List Char → Bool
  | [] => true
  | c :: _ => !p c

/-- the head of the list, if any, is not a decimal digit -/
def headNotDigit (l : List Char) : Bool := headNot Char.isDigit l

/-- the head of the list, if any, neither extends the amount run nor starts
a fractional part -/
def gapHeadOK : List Char → Bool
  | [] => true
  | c :: _ => !isAmtChar c && decide (c ≠ '.')

/-- well-formedness of one occurrence: non-empty integer part over `[\d,]`,
digit-only fraction, non-empty digit-only id, a gap that does not continue
the amount and does not contain (even a straddling start of) the
case-insensitive literal `Invoice ID:`. -/
def occWF (o : SaleOcc) : Bool :=
  !o.intPart.isEmpty && o.intPart.all isAmtChar &&
  (match o.frac with | some f => f.all Char.isDigit | none => true) &&
  !o.idDigits.isEmpty && o.idDigits.all Char.isDigit &&
  gapHeadOK o.gap &&
  !hasLitCI "Invoice ID:".toList (o.gap ++ "Invoice ID".toList)

/- ### Support lemmas for the pattern-1 characterization -/

theorem ws_not_amt (c : Char) (h : isWs c = true) : isAmtChar c = false := by
  have h' : c = ' ' ∨ c = '\t' ∨ c = '\n' ∨ c = '\r' ∨ c = '\x0b' ∨ c = '\x0c' := by
    simpa [isWs, or_assoc] using h
  rcases h' with h' | h' | h' | h' | h' | h' <;> subst h' <;> decide

theorem amt_not_ws (c : Char) (h : isAmtChar c = true) : isWs c = false := by
  cases hws : isWs c
  · rfl
  · rw [ws_not_amt c hws] at h
    exact absurd h (by decide)

theorem takeWhile_append_all (p : Char → Bool) (xs ys : List Char)
    (h : ∀ x ∈ xs, p x = true) :
    (xs ++ ys).takeWhile p = xs ++ ys.takeWhile p := by
  induction xs with
  | nil => rfl
  | cons a t ih =>
    simp only [List.cons_append, List.takeWhile_cons,
      h a (List.mem_cons_self _ _), if_true, List.cons.injEq, true_and]
    exact ih (fun x hx => h x (List.mem_cons_of_mem _ hx))

theorem takeWhile_nil_of_headNot (p : Char → Bool) (ys : List Char)
    (h : headNot p ys = true) : ys.takeWhile p = [] := by
  cases ys with
  | nil => rfl
  | cons c t =>
    simp only [headNot, Bool.not_eq_true'] at h
    simp only [List.takeWhile_cons, h, Bool.false_eq_true, if_false]

theorem skipWs_cons_of_not (c : Char) (x : List Char) (h : isWs c = false) :
    skipWs (c :: x) = c :: x := by
  simp [skipWs, List.dropWhile, h]

theorem headNotDigit_of_gapHeadOK (l : List Char) (h : gapHeadOK l = true) :
    headNotDigit l = true := by
  cases l with
  | nil => rfl
  | cons c t =>
    simp only [gapHeadOK, Bool.and_eq_true, Bool.not_eq_true'] at h
    simp only [headNotDigit, headNot, Bool.not_eq_true']
    have := h.1
    simp only [isAmtChar, Bool.or_eq_false_iff] at this
    exact this.1

theorem gapHeadOK_append (gap : List Char) (c : Char) (x : List Char)
    (h : gapHeadOK gap = true) (hc : (!isAmtChar c && decide (c ≠ '.')) = true) :
    gapHeadOK (gap ++ c :: x) = true := by
  cases gap with
  | nil => simpa [gapHeadOK] using hc
  | cons g t => simpa [gapHeadOK] using h

theorem matchAmount_occ (ip : List Char) (f : Option (List Char)) (rest : List Char)
    (h1 : ip.isEmpty = false) (h2 : ∀ c ∈ ip, isAmtChar c = true)
    (hf : ∀ g, f = some g → ∀ c ∈ g, c.isDigit = true)
    (hrest : gapHeadOK rest = true) :
    matchAmount (ip ++ (fracText f ++ rest)) = some (ip ++ fracText f, rest) := by
  have hside : headNot isAmtChar rest = true := by
    cases rest with
    | nil => rfl
    | cons c t =>
      simp only [gapHeadOK, Bool.and_eq_true] at hrest
      simpa [headNot] using hrest.1
  cases f with
  | none =>
    simp only [fracText, List.nil_append]
    have htk : (ip ++ rest).takeWhile isAmtChar = ip := by
      rw [takeWhile_append_all _ _ _ h2, takeWhile_nil_of_headNot isAmtChar rest hside,
        List.append_nil]
    unfold matchAmount
    simp only [htk, h1, Bool.false_eq_true, if_false, List.drop_left]
    cases rest with
    | nil => simp
    | cons c t =>
      have hc : c ≠ '.' := by
        simp only [gapHeadOK, Bool.and_eq_true, decide_eq_true_eq] at hrest
        exact hrest.2
      split
      · rename_i rest2 heq
        rw [List.cons.injEq] at heq
        exact absurd heq.1 hc
      · simp
  | some g =>
    simp only [fracText]
    have htk : (ip ++ ('.' :: (g ++ rest))).takeWhile isAmtChar = ip := by
      rw [takeWhile_append_all _ _ _ h2,
        takeWhile_nil_of_headNot isAmtChar ('.' :: (g ++ rest)) rfl,
        List.append_nil]
    have htkg : (g ++ rest).takeWhile Char.isDigit = g := by
      rw [takeWhile_append_all _ _ _ (hf g rfl),
        takeWhile_nil_of_headNot Char.isDigit rest
          (headNotDigit_of_gapHeadOK rest hrest), List.append_nil]
    unfold matchAmount
    simp only [List.cons_append, htk, h1, Bool.false_eq_true, if_false, List.drop_left]
    simp only [htkg, List.drop_left]

theorem matchLit_isSome_congr (lit : List Char) : ∀ (xs ys : List Char),
    xs.take lit.length = ys.take lit.length →
    (matchLit lit xs).isSome = (matchLit lit ys).isSome := by
  induction lit with
  | nil => intro xs ys _; rfl
  | cons l ls ih =>
    intro xs ys h
    cases xs with
    | nil =>
      cases ys with
      | nil => rfl
      | cons b bs => simp [List.take_succ_cons] at h
    | cons a as =>
      cases ys with
      | nil => simp [List.take_succ_cons] at h
      | cons b bs =>
        simp only [List.length_cons, List.take_succ_cons, List.cons.injEq] at h
        obtain ⟨hab, ht⟩ := h
        subst hab
        simp only [matchLit]
        cases hle : lowerEq l a
        · rfl
        · simp only [if_true]
          exact ih as bs ht

theorem take_append_congr (a : List Char) : ∀ (x y : List Char) (n : Nat),
    x.take (n - a.length) = y.take (n - a.length) →
    (a ++ x).take n = (a ++ y).take n := by
  induction a with
  | nil => intro x y n h; simpa using h
  | cons c t ih =>
    intro x y n h
    cases n with
    | zero => rfl
    | succ m =>
      simp only [List.cons_append, List.take_succ_cons, List.cons.injEq, true_and]
      exact ih x y m (by simpa [List.length_cons, Nat.succ_sub_succ] using h)

theorem matchInvoiceIdAt_lit (ids tail : List Char)
    (h1 : ids.isEmpty = false) (h2 : ∀ c ∈ ids, Char.isDigit c = true)
    (h3 : headNotDigit tail = true) :
    matchInvoiceIdAt ("Invoice ID: #".toList ++ (ids ++ tail)) = some (ids, tail) := by
  have hlit : matchLit "Invoice ID:".toList ("Invoice ID: #".toList ++ (ids ++ tail)) =
      some (' ' :: ('#' :: (ids ++ tail))) := rfl
  have hws : skipWs (' ' :: ('#' :: (ids ++ tail))) = '#' :: (ids ++ tail) := by
    rw [show skipWs (' ' :: ('#' :: (ids ++ tail))) =
          skipWs ('#' :: (ids ++ tail)) from rfl,
      skipWs_cons_of_not '#' _ (by decide)]
  have hopt : matchOptChar '#' ('#' :: (ids ++ tail)) = ids ++ tail := by
    simp [matchOptChar, lowerEq]
  have htk : (ids ++ tail).takeWhile Char.isDigit = ids := by
    rw [takeWhile_append_all _ _ _ h2, takeWhile_nil_of_headNot Char.isDigit tail h3,
      List.append_nil]
  unfold matchInvoiceIdAt
  simp only [hlit, hws, hopt, htk, h1, Bool.false_eq_true, if_false, List.drop_left]

theorem findInvoiceId_gap (gap : List Char) (rest : List Char) (v : List Char × List Char)
    (hg : hasLitCI "Invoice ID:".toList (gap ++ "Invoice ID".toList) = false)
    (hr : matchInvoiceIdAt rest = some v)
    (hpre : rest.take 10 = "Invoice ID".toList) :
    findInvoiceId (gap ++ rest) = some v := by
  induction gap with
  | nil =>
    cases rest with
    | nil =>
      rw [show matchInvoiceIdAt [] = none from rfl] at hr
      exact absurd hr (by simp)
    | cons c cs =>
      simp only [List.nil_append]
      unfold findInvoiceId
      rw [hr]
  | cons g gs ih =>
    have hg2 : (matchLit "Invoice ID:".toList (g :: (gs ++ "Invoice ID".toList))).isSome = false ∧
        hasLitCI "Invoice ID:".toList (gs ++ "Invoice ID".toList) = false := by
      have h := hg
      rw [show hasLitCI "Invoice ID:".toList ((g :: gs) ++ "Invoice ID".toList) =
            ((matchLit "Invoice ID:".toList (g :: (gs ++ "Invoice ID".toList))).isSome
              || hasLitCI "Invoice ID:".toList (gs ++ "Invoice ID".toList)) from rfl] at h
      exact Bool.or_eq_false_iff.mp h
    have htake : (g :: (gs ++ rest)).take ("Invoice ID:".toList.length) =
        (g :: (gs ++ "Invoice ID".toList)).take ("Invoice ID:".toList.length) := by
      rw [show ("Invoice ID:".toList.length) = 10 + 1 from rfl,
        List.take_succ_cons, List.take_succ_cons]
      congr 1
      apply take_append_congr
      rw [← hpre, List.take_take, Nat.min_eq_left (by omega)]
    have hfail : matchInvoiceIdAt (g :: (gs ++ rest)) = none := by
      cases hm : matchInvoiceIdAt (g :: (gs ++ rest)) with
      | none => rfl
      | some w =>
        exfalso
        have hsome : (matchLit "Invoice ID:".toList (g :: (gs ++ rest))).isSome = true := by
          unfold matchInvoiceIdAt at hm
          cases hml : matchLit "Invoice ID:".toList (g :: (gs ++ rest)) with
          | none => rw [hml] at hm; simp at hm
          | some r => rfl
        rw [matchLit_isSome_congr _ _ _ htake] at hsome
        rw [hsome] at hg2
        exact absurd hg2.1 (by decide)
    simp only [List.cons_append]
    unfold findInvoiceId
    rw [hfail]
    exact ih hg2.2

/-- `matchLit` of the pattern-1 head literal over a rendered occurrence. -/
theorem matchLit_saleOfRs (x : List Char) :
    matchLit "Sale of Rs".toList ("Sale of Rs. ".toList ++ x) =
      some ('.' :: (' ' :: x)) := rfl

theorem matchOptChar_dot (x : List Char) : matchOptChar '.' ('.' :: x) = x := rfl

theorem skipWs_space (x : List Char) : skipWs (' ' :: x) = skipWs x := rfl

theorem matchP1At_occ (o : SaleOcc) (tail : List Char) (hwf : occWF o = true)
    (htail : headNotDigit tail = true) :
    matchP1At (occText o ++ tail) = some ((amountText o, o.idDigits), tail) := by
  simp only [occWF, Bool.and_eq_true] at hwf
  obtain ⟨⟨⟨⟨⟨⟨hA, hB⟩, hC⟩, hD⟩, hE⟩, hF⟩, hG⟩ := hwf
  rw [Bool.not_eq_true'] at hA hD hG
  rw [List.all_eq_true] at hB hE
  have hBn : ∀ c ∈ o.intPart, isAmtChar c = true := hB
  have hEn : ∀ c ∈ o.idDigits, Char.isDigit c = true := hE
  have hCn : ∀ g, o.frac = some g → ∀ c ∈ g, Char.isDigit c = true := by
    intro g heq
    rw [heq] at hC
    have hCg : g.all Char.isDigit = true := hC
    rw [List.all_eq_true] at hCg
    exact hCg
  have hshape : occText o ++ tail =
      "Sale of Rs. ".toList ++
        (amountText o ++ (o.gap ++ ("Invoice ID: #".toList ++ (o.idDigits ++ tail)))) := by
    simp [occText, List.append_assoc]
  have hlit := matchLit_saleOfRs
    (amountText o ++ (o.gap ++ ("Invoice ID: #".toList ++ (o.idDigits ++ tail))))
  obtain ⟨cip, tip, hipeq⟩ : ∃ c t, o.intPart = c :: t := by
    cases hip : o.intPart with
    | nil => rw [hip] at hA; exact absurd hA (by decide)
    | cons c t => exact ⟨c, t, rfl⟩
  have hcip : isAmtChar cip = true := hBn cip (by rw [hipeq]; exact List.mem_cons_self _ _)
  have hRok : gapHeadOK
      (o.gap ++ ("Invoice ID: #".toList ++ (o.idDigits ++ tail))) = true := by
    rw [show ("Invoice ID: #".toList ++ (o.idDigits ++ tail)) =
          'I' :: ("nvoice ID: #".toList ++ (o.idDigits ++ tail)) from rfl]
    exact gapHeadOK_append o.gap 'I' _ hF (by decide)
  have hskipX : skipWs
      (amountText o ++ (o.gap ++ ("Invoice ID: #".toList ++ (o.idDigits ++ tail)))) =
      amountText o ++ (o.gap ++ ("Invoice ID: #".toList ++ (o.idDigits ++ tail))) := by
    rw [amountText, hipeq]
    simp only [List.cons_append]
    exact skipWs_cons_of_not cip _ (amt_not_ws cip hcip)
  have hamt : matchAmount
      (amountText o ++ (o.gap ++ ("Invoice ID: #".toList ++ (o.idDigits ++ tail)))) =
      some (amountText o, o.gap ++ ("Invoice ID: #".toList ++ (o.idDigits ++ tail))) := by
    have := matchAmount_occ o.intPart o.frac
      (o.gap ++ ("Invoice ID: #".toList ++ (o.idDigits ++ tail))) hA hBn hCn hRok
    simpa [amountText, List.append_assoc] using this
  have hfind : findInvoiceId
      (o.gap ++ ("Invoice ID: #".toList ++ (o.idDigits ++ tail))) =
      some (o.idDigits, tail) := by
    exact findInvoiceId_gap o.gap ("Invoice ID: #".toList ++ (o.idDigits ++ tail))
      (o.idDigits, tail) hG (matchInvoiceIdAt_lit o.idDigits tail hD hEn htail) rfl
  rw [hshape]
  unfold matchP1At
  simp only [hlit, matchOptChar_dot, skipWs_space, hskipX, hamt, hfind]

/-- `occText` always begins with the literal character `S`. -/
theorem occText_cons (o : SaleOcc) :
    occText o = 'S' :: ("ale of Rs. ".toList ++
      (amountText o ++ (o.gap ++ ("Invoice ID: #".toList ++ o.idDigits)))) := rfl

theorem occsText_headNotDigit (os : List SaleOcc) : headNotDigit (occsText os) = true := by
  cases os with
  | nil => rfl
  | cons o t =>
    rw [show occsText (o :: t) = occText o ++ occsText t from rfl, occText_cons,
      List.cons_append]
    rfl

theorem findallAux_occs (os : List SaleOcc) : ∀ fuel : Nat,
    (∀ o ∈ os, occWF o = true) → (occsText os).length ≤ fuel →
    findallAux matchP1At fuel (occsText os) =
      os.map (fun o => (amountText o, o.idDigits)) := by
  induction os with
  | nil =>
    intro fuel _ _
    cases fuel <;> rfl
  | cons o ot ih =>
    intro fuel hwf hfuel
    have hsplit : occsText (o :: ot) = occText o ++ occsText ot := rfl
    have hlen1 : 0 < (occText o).length := by
      rw [occText_cons]
      simp
    cases fuel with
    | zero =>
      exfalso
      rw [hsplit] at hfuel
      simp only [List.length_append, Nat.le_zero] at hfuel
      omega
    | succ f =>
      have hm := matchP1At_occ o (occsText ot) (hwf o (List.mem_cons_self _ _))
        (occsText_headNotDigit ot)
      have key : matchP1At ('S' :: (("ale of Rs. ".toList ++
          (amountText o ++ (o.gap ++ ("Invoice ID: #".toList ++ o.idDigits)))) ++
            occsText ot)) = some ((amountText o, o.idDigits), occsText ot) := by
        rw [← List.cons_append, ← occText_cons]
        exact hm
      have hstep : findallAux matchP1At (f + 1) (occsText (o :: ot)) =
          (amountText o, o.idDigits) :: findallAux matchP1At f (occsText ot) := by
        rw [hsplit, occText_cons, List.cons_append]
        simp only [findallAux, key]
      rw [hstep, List.map_cons]
      have hfuel2 : (occsText ot).length ≤ f := by
        rw [hsplit] at hfuel
        simp only [List.length_append] at hfuel
        omega
      rw [ih f (fun q hq => hwf q (List.mem_cons_of_mem _ hq)) hfuel2]

theorem findallP1_occs (os : List SaleOcc) (hwf : ∀ o ∈ os, occWF o = true) :
    findallP1 (occsText os) = os.map (fun o => (amountText o, o.idDigits)) :=
  findallAux_occs os (occsText os).length hwf (Nat.le_refl _)

/-- C3: over any non-empty sequence of well-formed occurrences of the shape
`Sale of Rs. <amount><gap>Invoice ID: #<id>`, the detail extractor commits to
the first pattern of `sales_patterns` (which matches at least once, so the
later, looser patterns are never consulted) and yields exactly one
(amount, invoice-id) pair per occurrence, in order, with commas stripped
from each amount. -/
theorem c3_detail_extractor (os : List SaleOcc) (hwf : ∀ o ∈ os, occWF o = true)
    (hne : os ≠ []) :
    detailFirstMatches (occsText os) = findallP1 (occsText os) ∧
    detailExtract (occsText os) =
      os.map (fun o => (stripCommas (amountText o), o.idDigits)) := by
  have hfa := findallP1_occs os hwf
  have hcond : (!(findallP1 (occsText os)).isEmpty) = true := by
    rw [hfa]
    cases os with
    | nil => exact absurd rfl hne
    | cons a t => simp
  have hfirst : detailFirstMatches (occsText os) = findallP1 (occsText os) := by
    unfold detailFirstMatches
    rw [if_pos hcond]
  refine ⟨hfirst, ?_⟩
  unfold detailExtract
  rw [hfirst, hfa, List.map_map]
  rfl

/- ### The per-card extraction loop of `scrape_sales` (claim C9)

The remaining pieces of the card loop: Python `str.strip`, the name-fallback
regex `#\d+\s+([^\n🧾💵]+)` (`re.search`, no flags), and the three
`summary_patterns` searched with `re.IGNORECASE` and no `re.DOTALL`. -/

/-- Python `str.strip()`: drop leading and trailing whitespace -/
def pyStripL (cs : List Char) : List Char :=
  ((cs.dropWhile isWs).reverse.dropWhile isWs).reverse

def pyStrip (s : String) : String := String.mk (pyStripL s.toList)

/-- the character class `[^\n🧾💵]` of the name-fallback regex -/
def allowedNameChar (c : Char) : Bool :=
  decide (c ≠ '\n') && decide (c ≠ '🧾') && decide (c ≠ '💵')

/-- backtracking of the greedy `\s+`: try the largest whitespace run first,
give back one character at a time while the capture `[^\n🧾💵]+` is empty -/
def nameBacktrack (r2 : List Char) : Nat → Option (List Char)
  | 0 => none
  | k + 1 =>
    let cap := (r2.drop (k + 1)).takeWhile allowedNameChar
    if cap.isEmpty then nameBacktrack r2 k else some cap

/-- the name-fallback pattern `#\d+\s+([^\n🧾💵]+)` at the current position -/
def matchNameAt (cs : List Char) : Option (List Char) :=
  match cs with
  | '#' :: rest =>
    let ds := rest.takeWhile Char.isDigit
    if ds.isEmpty then none
    else
      let r2 := rest.drop ds.length
      let ws := r2.takeWhile isWs
      if ws.isEmpty then none else nameBacktrack r2 ws.length
  | _ => none

/-- `re.search`: try the pattern at each position, leftmost success wins -/
def searchFirst {α : Type} (m : List Char → Option α) : List Char → Option α
  | [] => m []
  | c :: cs =>
    match m (c :: cs) with
    | some r => some r
    | none => searchFirst m cs

/-- name fallback (lines 306-309): search the rank-marker pattern, return
`group(1).strip()` on a match and `"Unknown"` otherwise -/
def extractName (s : String) : String :=
  match searchFirst matchNameAt s.toList with
  | some cap => String.mk (pyStripL cap)
  | none => "Unknown"

/-- `Rs\.?\s*([\d,]+\.?\d*)` at the current position (common tail of the
summary patterns); returns the amount group -/
def matchRsAmtAt (cs : List Char) : Option (List Char) :=
  match matchLit "Rs".toList cs with
  | none => none
  | some r1 =>
    match matchAmount (skipWs (matchOptChar '.' r1)) with
    | none => none
    | some (amt, _) => some amt

/-- the lazy gap `.*?` of the summary patterns (no `re.DOTALL`: the gap
cannot cross a newline) before `Rs\.?\s*<amount>` -/
def findRsAmt : List Char → Option (List Char)
  | [] => none
  | c :: cs =>
    match matchRsAmtAt (c :: cs) with
    | some a => some a
    | none => if c = '\n' then none else findRsAmt cs

/-- summary pattern 1, `🧾\s*(\d+)\s*sales?\s*\|\s*💵\s*Rs\.?\s*([\d,]+\.?\d*)` -/
def matchSum1At (cs : List Char) : Option (List Char × List Char) :=
  match cs with
  | [] => none
  | c :: r0 =>
    if c = '🧾' then
      let r1 := skipWs r0
      let d1 := r1.takeWhile Char.isDigit
      if d1.isEmpty then none
      else
        match matchLit "sale".toList (skipWs (r1.drop d1.length)) with
        | none => none
        | some r3 =>
          match skipWs (matchOptChar 's' r3) with
          | '|' :: r6 =>
            match skipWs r6 with
            | c2 :: r8 =>
              if c2 = '💵' then
                match matchLit "Rs".toList (skipWs r8) with
                | none => none
                | some r10 =>
                  match matchAmount (skipWs (matchOptChar '.' r10)) with
                  | none => none
                  | some (amt, _) => some (d1, amt)
              else none
            | [] => none
          | _ => none
    else none

/-- summary pattern 2, `(\d+)\s*sales?.*?Rs\.?\s*([\d,]+\.?\d*)` -/
def matchSum2At (cs : List Char) : Option (List Char × List Char) :=
  let d1 := cs.takeWhile Char.isDigit
  if d1.isEmpty then none
  else
    match matchLit "sale".toList (skipWs (cs.drop d1.length)) with
    | none => none
    | some r3 =>
      match findRsAmt (matchOptChar 's' r3) with
      | none => none
      | some amt => some (d1, amt)

/-- summary pattern 3, `sales:\s*(\d+).*?Rs\.?\s*([\d,]+\.?\d*)` -/
def matchSum3At (cs : List Char) : Option (List Char × List Char) :=
  match matchLit "sales:".toList cs with
  | none => none
  | some r1 =>
    let r2 := skipWs r1
    let d1 := r2.takeWhile Char.isDigit
    if d1.isEmpty then none
    else
      match findRsAmt (r2.drop d1.length) with
      | none => none
      | some amt => some (d1, amt)

/-- the `summary_patterns` loop (lines 410-435): `re.search` each pattern in
source order and commit to the first that matches anywhere; returns the
(count, amount) groups -/
def summaryExtract (cs : List Char) : Option (List Char × List Char) :=
  match searchFirst matchSum1At cs with
  | some g => some g
  | none =>
    match searchFirst matchSum2At cs with
    | some g => some g
    | none => searchFirst matchSum3At cs

/-- One leaderboard card as the driver sees it: its text before expansion,
the optional `span.font-semibold` name text (`none` when absent or raising),
whether the click/expansion block raises, the text after expansion, and the
DOM fallback elements (each element's text, `none` from the point where a
read raises). -/
structure Card where
  textReadFails : Bool
  initialText : String
  nameSpanText : Option String
  clickFails : Bool
  expandedText : String
  domFindFails : Bool
  domElems : List (Option String)
deriving DecidableEq

/-- a detail row `[timestamp, name, invoice_id, amount_without_commas, ""]`
(lines 356-362) -/
def mkDetailRow (ts name : String) (m : List Char × List Char) : Row :=
  [ts, name, String.mk m.2, String.mk (stripCommas m.1), ""]

/-- the DOM fallback loop (lines 370-398): scan the sales elements in order;
an element whose text read raises aborts the block (`dom_error` handler),
keeping earlier contributions; each element with stripped text longer than
10 characters contributes the rows of its first matching pattern.  Returns
(appended rows, whether any detailed sale was found). -/
def domScan (ts name : String) : List (Option String) → List Row × Bool
  | [] => ([], false)
  | none :: _ => ([], false)
  | some t :: rest =>
    let et := pyStrip t
    let ms := if 10 < et.length then detailFirstMatches et.toList else []
    let pr := domScan ts name rest
    (ms.map (mkDetailRow ts name) ++ pr.1, !ms.isEmpty || pr.2)

/-- the click-and-expand block (lines 317-404): on a click failure the
handler catches and nothing is extracted; on growth of the stripped text the
detail patterns run over the expanded text, with the DOM fallback next;
returns (current text, detail rows, detailed-sales-found flag). -/
def clickPhase (ts name : String) (c : Card) (text0 : String) :
    String × List Row × Bool :=
  if c.clickFails then (text0, [], false)
  else if text0.length < (pyStrip c.expandedText).length then
    if !(detailFirstMatches (pyStrip c.expandedText).toList).isEmpty then
      (pyStrip c.expandedText,
        (detailFirstMatches (pyStrip c.expandedText).toList).map (mkDetailRow ts name),
        true)
    else if c.domFindFails then (pyStrip c.expandedText, [], false)
    else (pyStrip c.expandedText, (domScan ts name c.domElems).1,
      (domScan ts name c.domElems).2)
  else (text0, [], false)

/-- name resolution (lines 294-310): the `span.font-semibold` text when the
proven-selector mode finds one, else the rank-marker regex fallback over the
card's stripped text -/
def cardName (usingProven : Bool) (c : Card) : String :=
  match (if usingProven then c.nameSpanText else none) with
  | some s =>
    if pyStrip s = "Unknown" then extractName (pyStrip c.initialText) else pyStrip s
  | none => extractName (pyStrip c.initialText)

/-- one iteration of the card loop of `scrape_sales` (lines 288-435):
`none` when an exception escapes to the per-card handler (line 437, possible
only at the initial `leader.text` read); otherwise the card's appended rows,
with the summary fallback running when no detailed sale was found -/
def processCard (usingProven : Bool) (ts : String) (unixTime : Nat) (c : Card) :
    Option (List Row) :=
  if c.textReadFails then none
  else if cardName usingProven c = "Unknown" ∨ cardName usingProven c = "" then
    some []
  else if (clickPhase ts (cardName usingProven c) c (pyStrip c.initialText)).2.2 then
    some (clickPhase ts (cardName usingProven c) c (pyStrip c.initialText)).2.1
  else
    match summaryExtract
        (clickPhase ts (cardName usingProven c) c (pyStrip c.initialText)).1.toList with
    | some g =>
      some ((clickPhase ts (cardName usingProven c) c (pyStrip c.initialText)).2.1 ++
        [[ts, cardName usingProven c, "SUMMARY_" ++ toString unixTime,
          String.mk (stripCommas g.2), ""]])
    | none =>
      some (clickPhase ts (cardName usingProven c) c (pyStrip c.initialText)).2.1

/-- the card loop (lines 288-440): each card body is wrapped in its own
`try/except`; a card that raises contributes nothing and the loop continues -/
def scrapeCards (usingProven : Bool) (ts : String) (unixTime : Nat) :
    List Card → List Row
  | [] => []
  | c :: cs =>
    (processCard usingProven ts unixTime c).getD [] ++
      scrapeCards usingProven ts unixTime cs

theorem mkDetailRow_shape (ts name : String) (m : List Char × List Char) :
    ∃ inv amt, mkDetailRow ts name m = [ts, name, inv, amt, ""] :=
  ⟨String.mk m.2, String.mk (stripCommas m.1), rfl⟩

theorem domScan_rows (ts name : String) (elems : List (Option String)) (r : Row)
    (hr : r ∈ (domScan ts name elems).1) :
    ∃ inv amt, r = [ts, name, inv, amt, ""] := by
  induction elems with
  | nil => simp [domScan] at hr
  | cons e rest ih =>
    cases e with
    | none => simp [domScan] at hr
    | some t =>
      simp only [domScan] at hr
      rcases List.mem_append.mp hr with h | h
      · rcases List.mem_map.mp h with ⟨m, _, hme⟩
        rw [← hme]
        exact mkDetailRow_shape ts name m
      · exact ih h

theorem clickPhase_rows (ts name : String) (c : Card) (text0 : String) (r : Row)
    (hr : r ∈ (clickPhase ts name c text0).2.1) :
    ∃ inv amt, r = [ts, name, inv, amt, ""] := by
  unfold clickPhase at hr
  split at hr
  · simp at hr
  · split at hr
    · split at hr
      · simp only at hr
        rcases List.mem_map.mp hr with ⟨m, _, hme⟩
        rw [← hme]
        exact mkDetailRow_shape ts name m
      · split at hr
        · simp at hr
        · simp only at hr
          exact domScan_rows ts name c.domElems r hr
    · simp at hr

theorem processCard_rows (usingProven : Bool) (ts : String) (unixTime : Nat)
    (c : Card) (r : Row)
    (hr : r ∈ (processCard usingProven ts unixTime c).getD []) :
    ∃ nm inv amt, r = [ts, nm, inv, amt, ""] := by
  unfold processCard at hr
  split at hr
  · simp at hr
  · split at hr
    · simp at hr
    · split at hr
      · simp only [Option.getD_some] at hr
        obtain ⟨inv, amt, he⟩ := clickPhase_rows ts _ c _ r hr
        exact ⟨_, inv, amt, he⟩
      · split at hr
        · rename_i g hg
          simp only [Option.getD_some] at hr
          rcases List.mem_append.mp hr with h | h
          · obtain ⟨inv, amt, he⟩ := clickPhase_rows ts _ c _ r h
            exact ⟨_, inv, amt, he⟩
          · rcases List.mem_singleton.mp h with rfl
            exact ⟨_, _, _, rfl⟩
        · simp only [Option.getD_some] at hr
          obtain ⟨inv, amt, he⟩ := clickPhase_rows ts _ c _ r hr
          exact ⟨_, inv, amt, he⟩

/-- C9 counterexample: a card whose click/expansion raises (a click timeout,
caught by the inner handler) still contributes a synthetic summary record
when a summary pattern matches its collapsed text — the failed card does not
contribute "nothing". -/
theorem c9_counterexample :
    (Card.mk false "#1 Bob 🧾 1 sales | 💵 Rs. 100" none true "" false
        []).clickFails = true ∧
    processCard false "2024-01-01 10:00:00" 1700000000
        (Card.mk false "#1 Bob 🧾 1 sales | 💵 Rs. 100" none true "" false []) =
      some [["2024-01-01 10:00:00", "Bob", "SUMMARY_1700000000", "100", ""]] ∧
    (some [["2024-01-01 10:00:00", "Bob", "SUMMARY_1700000000", "100", ""]] :
        Option (List Row)) ≠ some ([] : List Row) := by
  refine ⟨rfl, by decide, by decide⟩

/-- C9 (amended): the card loop is failure-contained: the rows of a card
list are the concatenation of each card's own contribution, so one card's
failure never affects the remaining cards; a failure that reaches the
per-card handler (the initial text read raising) makes that card contribute
nothing; and every emitted row is a complete five-field record
`[timestamp, name, invoice, amount, ""]` — no partial record is ever
emitted.  A failure caught deeper inside the card body (click/expansion) can
still let the card contribute a complete summary-fallback record. -/
theorem c9_amended_error_containment (usingProven : Bool) (ts : String)
    (unixTime : Nat) (cards : List Card) :
    scrapeCards usingProven ts unixTime cards =
      (cards.map (fun c => (processCard usingProven ts unixTime c).getD [])).flatten ∧
    (∀ c ∈ cards, c.textReadFails = true →
      processCard usingProven ts unixTime c = none) ∧
    (∀ r ∈ scrapeCards usingProven ts unixTime cards,
      ∃ nm inv amt, r = [ts, nm, inv, amt, ""]) := by
  refine ⟨?_, ?_, ?_⟩
  · induction cards with
    | nil => rfl
    | cons c cs ih => simp [scrapeCards, ih]
  · intro c _ hc
    unfold processCard
    rw [if_pos hc]
  · intro r hr
    induction cards with
    | nil => simp [scrapeCards] at hr
    | cons c cs ih =>
      simp only [scrapeCards] at hr
      rcases List.mem_append.mp hr with h | h
      · exact processCard_rows usingProven ts unixTime c r h
      · exact ih h

theorem c9_witness :
    processCard false "2024-01-01 10:00:00" 7
        (Card.mk true "" none false "" false []) = none :=
  (c9_amended_error_containment false "2024-01-01 10:00:00" 7
      [Card.mk true "" none false "" false []]).2.1
    (Card.mk true "" none false "" false []) (List.mem_cons_self _ _) rfl

theorem c3_witness :
    detailExtract (occsText
      [⟨"1,200".toList, some "50".toList, " something ".toList, "55512345".toList⟩,
       ⟨"300".toList, none, " xx ".toList, "99".toList⟩]) =
      [("1200.50".toList, "55512345".toList), ("300".toList, "99".toList)] := by
  have h := (c3_detail_extractor
    [⟨"1,200".toList, some "50".toList, " something ".toList, "55512345".toList⟩,
     ⟨"300".toList, none, " xx ".toList, "99".toList⟩] (by decide) (by decide)).2
  rw [h]
  decide

end Scraper
